import Mathlib

/-!
Verification of the `ckanserviceprovider.db` job-record store
(`src/ckanserviceprovider/db.py`) against its natural-language specification.

The development shallowly embeds the module:

* a `JValue` type models the JSON-encodable Python values handled by the
  module, together with an executable serializer (`dumps`, modelling
  `json.dumps`) and parser (`loads`, modelling `json.loads`); the central
  round-trip theorem `loads_dumps` is proved below;
* the three SQL tables become lists of row structures inside a `Store`;
* `add_pending_job`, `mark_job_as_completed`, `get_job`, `get_metadata`
  and `get_logs` are translated statement by statement; `add_pending_job`
  additionally records the connection/transaction events it performs so
  that resource-handling properties can be stated.
-/

/-- JSON-encodable Python values (model of the values that flow through
`json.dumps` / `json.loads` in `db.py`). -/
inductive JValue where
  | null : JValue
  | bool : Bool → JValue
  | num : Int → JValue
  | str : String → JValue
  | arr : List JValue → JValue
  | obj : List (String × JValue) → JValue
  deriving Repr

/-- Escape a raw character sequence for inclusion inside a JSON string
literal: quote and backslash are backslash-escaped, everything else is
kept verbatim. -/
def escapeChars : List Char → List Char
  | [] => []
  | c :: t =>
    if c = '"' ∨ c = '\\' then '\\' :: c :: escapeChars t
    else c :: escapeChars t

/-- Decimal digit to character. -/
def digitToChar : Nat → Char
  | 0 => '0'
  | 1 => '1'
  | 2 => '2'
  | 3 => '3'
  | 4 => '4'
  | 5 => '5'
  | 6 => '6'
  | 7 => '7'
  | 8 => '8'
  | 9 => '9'
  | _ => '?'

/-- Character to decimal digit, `none` on non-digits. -/
def charToDigit (c : Char) : Option Nat :=
  if c = '0' then some 0
  else if c = '1' then some 1
  else if c = '2' then some 2
  else if c = '3' then some 3
  else if c = '4' then some 4
  else if c = '5' then some 5
  else if c = '6' then some 6
  else if c = '7' then some 7
  else if c = '8' then some 8
  else if c = '9' then some 9
  else none

/-- Fuel-driven decimal rendering (structural recursion, so that the kernel
can evaluate serialized values on concrete inputs). -/
def printNatAux : Nat → Nat → List Char
  | 0, _ => []
  | fuel + 1, n =>
    if n < 10 then [digitToChar n]
    else printNatAux fuel (n / 10) ++ [digitToChar (n % 10)]

/-- Decimal rendering of a natural number. -/
def printNat (n : Nat) : List Char := printNatAux (n + 1) n

/-- Decimal rendering of an integer (JSON number). -/
def printInt (i : Int) : List Char :=
  if i < 0 then '-' :: printNat i.natAbs else printNat i.natAbs

mutual

/-- Model of `json.dumps` at the character-list level (compact separators;
the exact whitespace of the Python serializer is irrelevant to every
property below). -/
def dumpVal : JValue → List Char
  | .null => 'n' :: 'u' :: 'l' :: 'l' :: []
  | .bool true => 't' :: 'r' :: 'u' :: 'e' :: []
  | .bool false => 'f' :: 'a' :: 'l' :: 's' :: 'e' :: []
  | .num i => printInt i
  | .str s => '"' :: (escapeChars s.data ++ ['"'])
  | .arr xs => '[' :: (dumpArr xs ++ [']'])
  | .obj ms => '{' :: (dumpObj ms ++ ['}'])

/-- Comma-separated rendering of an array body. -/
def dumpArr : List JValue → List Char
  | [] => []
  | [x] => dumpVal x
  | x :: y :: ys => dumpVal x ++ ',' :: dumpArr (y :: ys)

/-- Comma-separated rendering of an object body, each member rendered as
`"key":value`. -/
def dumpObj : List (String × JValue) → List Char
  | [] => []
  | [(k, v)] => '"' :: (escapeChars k.data ++ '"' :: ':' :: dumpVal v)
  | (k, v) :: m :: ms =>
    ('"' :: (escapeChars k.data ++ '"' :: ':' :: dumpVal v)) ++
      ',' :: dumpObj (m :: ms)

end

/-- Model of `json.dumps`. -/
def dumps (v : JValue) : String := String.mk (dumpVal v)

/-- Greedily read decimal digits. -/
def parseDigits : List Char → (List Nat × List Char)
  | [] => ([], [])
  | c :: r =>
    match charToDigit c with
    | some d =>
      let p := parseDigits r
      (d :: p.1, p.2)
    | none => ([], c :: r)

/-- Big-endian digit list to natural number. -/
def digitsToNat (ds : List Nat) : Nat :=
  ds.foldl (fun a d => 10 * a + d) 0

/-- Read a JSON integer (optional minus sign, at least one digit). -/
def parseInt : List Char → Option (Int × List Char)
  | [] => none
  | c :: r =>
    if c = '-' then
      match parseDigits r with
      | ([], _) => none
      | (d :: ds, r2) => some (-(digitsToNat (d :: ds) : Int), r2)
    else
      match parseDigits (c :: r) with
      | ([], _) => none
      | (d :: ds, r2) => some ((digitsToNat (d :: ds) : Int), r2)

/-- Match an expected literal character sequence, returning the remainder. -/
def expects : List Char → List Char → Option (List Char)
  | [], input => some input
  | _ :: _, [] => none
  | p :: ps, c :: cs => if c = p then expects ps cs else none

/-- Read a JSON string body (after the opening quote) up to the closing
quote, unescaping backslash escapes. -/
def parseStrBody : List Char → Option (List Char × List Char)
  | [] => none
  | c :: r =>
    if c = '"' then some ([], r)
    else if c = '\\' then
      match r with
      | [] => none
      | e :: r2 =>
        match parseStrBody r2 with
        | some (cs, r3) => some (e :: cs, r3)
        | none => none
    else
      match parseStrBody r with
      | some (cs, r3) => some (c :: cs, r3)
      | none => none

mutual

/-- Fuel-indexed JSON value parser (model of `json.loads`). -/
def parseVal : Nat → List Char → Option (JValue × List Char)
  | 0, _ => none
  | fuel + 1, input =>
    match parseInt input with
    | some (i, r) => some (.num i, r)
    | none =>
      match input with
      | [] => none
      | c :: r =>
        if c = 'n' then
          match expects ['u', 'l', 'l'] r with
          | some r2 => some (.null, r2)
          | none => none
        else if c = 't' then
          match expects ['r', 'u', 'e'] r with
          | some r2 => some (.bool true, r2)
          | none => none
        else if c = 'f' then
          match expects ['a', 'l', 's', 'e'] r with
          | some r2 => some (.bool false, r2)
          | none => none
        else if c = '"' then
          match parseStrBody r with
          | some (cs, r2) => some (.str (String.mk cs), r2)
          | none => none
        else if c = '[' then
          if r.head? = some ']' then some (.arr [], r.tail)
          else
            match parseElems fuel r with
            | some (xs, r2) => some (.arr xs, r2)
            | none => none
        else if c = '{' then
          if r.head? = some '}' then some (.obj [], r.tail)
          else
            match parseMembers fuel r with
            | some (ms, r2) => some (.obj ms, r2)
            | none => none
        else none

/-- Parse a nonempty comma-separated array body including the closing
bracket. -/
def parseElems : Nat → List Char → Option (List JValue × List Char)
  | 0, _ => none
  | fuel + 1, input =>
    match parseVal fuel input with
    | none => none
    | some (v, r) =>
      if r.head? = some ',' then
        match parseElems fuel r.tail with
        | some (xs, r2) => some (v :: xs, r2)
        | none => none
      else if r.head? = some ']' then some ([v], r.tail)
      else none

/-- Parse a nonempty comma-separated object body including the closing
brace. -/
def parseMembers : Nat → List Char → Option (List (String × JValue) × List Char)
  | 0, _ => none
  | fuel + 1, input =>
    if input.head? = some '"' then
      match parseStrBody input.tail with
      | none => none
      | some (kcs, r1) =>
        if r1.head? = some ':' then
          match parseVal fuel r1.tail with
          | none => none
          | some (v, r3) =>
            if r3.head? = some ',' then
              match parseMembers fuel r3.tail with
              | some (ms, r5) => some ((String.mk kcs, v) :: ms, r5)
              | none => none
            else if r3.head? = some '}' then
              some ([(String.mk kcs, v)], r3.tail)
            else none
        else none
    else none

end

/-- Model of `json.loads`: parse the whole string as one JSON value,
`none` (an exception in Python) on anything else. -/
def loads (s : String) : Option JValue :=
  match parseVal (s.length + 1) s.data with
  | some (v, []) => some v
  | _ => none

/-- The input does not begin with a decimal digit. -/
def headNotDigit : List Char → Bool
  | [] => true
  | c :: _ => (charToDigit c).isNone

mutual

/-- Fuel sufficient for `parseVal` to reparse `dumpVal v`. -/
def nVal : JValue → Nat
  | .null => 1
  | .bool _ => 1
  | .num _ => 1
  | .str _ => 1
  | .arr xs => 1 + nArr xs
  | .obj ms => 1 + nObj ms

/-- Fuel sufficient for `parseElems` on a dumped nonempty array body. -/
def nArr : List JValue → Nat
  | [] => 0
  | x :: xs => 1 + nVal x + nArr xs

/-- Fuel sufficient for `parseMembers` on a dumped nonempty object body. -/
def nObj : List (String × JValue) → Nat
  | [] => 0
  | (_, v) :: ms => 1 + nVal v + nObj ms

end

theorem charToDigit_digitToChar {d : Nat} (h : d < 10) :
    charToDigit (digitToChar d) = some d := by
  interval_cases d <;> rfl

theorem charToDigit_isSome_ne {c : Char} (h : (charToDigit c).isSome = true) :
    c ≠ '-' := by
  intro hc
  subst hc
  simp [charToDigit] at h

theorem expects_append (pat rest : List Char) :
    expects pat (pat ++ rest) = some rest := by
  induction pat with
  | nil => rfl
  | cons c cs ih => simp [expects, ih]

theorem parseStrBody_quote (r : List Char) : parseStrBody ('"' :: r) = some ([], r) := by
  rw [parseStrBody.eq_def]
  simp

theorem parseStrBody_esc (e : Char) (r : List Char) :
    parseStrBody ('\\' :: e :: r) =
      match parseStrBody r with
      | some (cs, r3) => some (e :: cs, r3)
      | none => none := by
  rw [parseStrBody.eq_def]
  simp

theorem parseStrBody_other {c : Char} (h1 : c ≠ '"') (h2 : c ≠ '\\') (r : List Char) :
    parseStrBody (c :: r) =
      match parseStrBody r with
      | some (cs, r3) => some (c :: cs, r3)
      | none => none := by
  rw [parseStrBody.eq_def]
  simp [h1, h2]

theorem parseStrBody_escape (cs rest : List Char) :
    parseStrBody (escapeChars cs ++ '"' :: rest) = some (cs, rest) := by
  induction cs with
  | nil => simpa using parseStrBody_quote rest
  | cons c t ih =>
    by_cases h : c = '"' ∨ c = '\\'
    · simp only [escapeChars, if_pos h, List.cons_append]
      rw [parseStrBody_esc, ih]
    · push_neg at h
      simp only [escapeChars]
      rw [if_neg (fun hc => Or.elim hc h.1 h.2), List.cons_append,
        parseStrBody_other h.1 h.2, ih]

theorem String.mk_data (s : String) : String.mk s.data = s := rfl

theorem parseDigits_notDigit {rest : List Char} (h : headNotDigit rest = true) :
    parseDigits rest = ([], rest) := by
  cases rest with
  | nil => rfl
  | cons c r =>
    simp only [headNotDigit, Option.isNone_iff_eq_none] at h
    simp [parseDigits, h]

theorem parseDigits_append (ds : List Nat) (rest : List Char)
    (hds : ∀ d ∈ ds, d < 10) (hrest : headNotDigit rest = true) :
    parseDigits (ds.map digitToChar ++ rest) = (ds, rest) := by
  induction ds with
  | nil => simpa using parseDigits_notDigit hrest
  | cons d t ih =>
    have hd : d < 10 := hds d (by simp)
    have ht : ∀ x ∈ t, x < 10 := fun x hx => hds x (by simp [hx])
    simp [parseDigits, charToDigit_digitToChar hd, ih ht]

theorem digitsToNat_reverse (L : List Nat) :
    digitsToNat L.reverse = Nat.ofDigits 10 L := by
  induction L with
  | nil => rfl
  | cons d t ih =>
    simp only [List.reverse_cons, digitsToNat, List.foldl_append, List.foldl_cons,
      List.foldl_nil, Nat.ofDigits_cons]
    simp only [digitsToNat] at ih
    omega

/-- The digit list printed for `n` (big-endian). -/
def bigDigits (n : Nat) : List Nat :=
  if n = 0 then [0] else (Nat.digits 10 n).reverse

theorem printNatAux_eq_map (fuel : Nat) : ∀ n : Nat, n < fuel →
    printNatAux fuel n = (bigDigits n).map digitToChar := by
  induction fuel with
  | zero => omega
  | succ f ih =>
    intro n hn
    by_cases h10 : n < 10
    · by_cases h0 : n = 0
      · subst h0
        simp [printNatAux, bigDigits]
      · have hdg : Nat.digits 10 n = [n] := by
          rw [Nat.digits_def' (by norm_num) (by omega)]
          simp [Nat.mod_eq_of_lt h10, Nat.div_eq_of_lt h10]
        simp [printNatAux, h10, bigDigits, h0, hdg]
    · have hn0 : n ≠ 0 := by omega
      have hd : Nat.digits 10 n = n % 10 :: Nat.digits 10 (n / 10) :=
        Nat.digits_def' (by norm_num) (by omega)
      have hdiv0 : n / 10 ≠ 0 := by
        have := Nat.div_pos (by omega : 10 ≤ n) (by norm_num : (0:Nat) < 10)
        omega
      have hlt : n / 10 < f := by
        have h1 : n / 10 < n := Nat.div_lt_self (by omega) (by norm_num)
        omega
      simp only [printNatAux, if_neg h10]
      rw [ih _ hlt]
      simp [bigDigits, hn0, hdiv0, hd]

theorem printNat_eq_map (n : Nat) : printNat n = (bigDigits n).map digitToChar :=
  printNatAux_eq_map (n + 1) n (Nat.lt_succ_self n)

theorem bigDigits_lt (n : Nat) : ∀ d ∈ bigDigits n, d < 10 := by
  intro d hd
  by_cases h : n = 0
  · subst h; simp [bigDigits] at hd; omega
  · simp only [bigDigits, if_neg h, List.mem_reverse] at hd
    exact Nat.digits_lt_base (by norm_num) hd

theorem digitsToNat_bigDigits (n : Nat) : digitsToNat (bigDigits n) = n := by
  by_cases h : n = 0
  · subst h; rfl
  · simp only [bigDigits, if_neg h, digitsToNat_reverse]
    exact Nat.ofDigits_digits 10 n

theorem bigDigits_ne_nil (n : Nat) : bigDigits n ≠ [] := by
  by_cases h : n = 0
  · subst h; simp [bigDigits]
  · simp only [bigDigits, if_neg h]
    simp [Nat.digits_ne_nil_iff_ne_zero, h]

theorem parseInt_printInt (i : Int) (rest : List Char) (hrest : headNotDigit rest = true) :
    parseInt (printInt i ++ rest) = some (i, rest) := by
  obtain ⟨d, ds, hds⟩ : ∃ d ds, bigDigits i.natAbs = d :: ds := by
    cases h : bigDigits i.natAbs with
    | nil => exact absurd h (bigDigits_ne_nil _)
    | cons d ds => exact ⟨d, ds, rfl⟩
  have hdig : parseDigits ((d :: ds).map digitToChar ++ rest) = (d :: ds, rest) := by
    rw [← hds]
    exact parseDigits_append _ _ (bigDigits_lt _) hrest
  have hdig2 : parseDigits (digitToChar d :: (ds.map digitToChar ++ rest)) =
      (d :: ds, rest) := by
    simpa using hdig
  have hval : digitsToNat (d :: ds) = i.natAbs := by
    rw [← hds]
    exact digitsToNat_bigDigits _
  by_cases hneg : i < 0
  · have hshape : printInt i ++ rest = '-' :: ((d :: ds).map digitToChar ++ rest) := by
      simp [printInt, hneg, printNat_eq_map, hds]
    rw [hshape]
    simp [parseInt, hdig2, hval]
    rw [abs_of_neg hneg]
    ring
  · have hd10 : d < 10 := bigDigits_lt _ d (by rw [hds]; simp)
    have hne : digitToChar d ≠ '-' := by
      apply charToDigit_isSome_ne
      rw [charToDigit_digitToChar hd10]
      rfl
    have hshape : printInt i ++ rest = digitToChar d :: (ds.map digitToChar ++ rest) := by
      simp [printInt, hneg, printNat_eq_map, hds]
    rw [hshape]
    simp [parseInt, hne, hdig2, hval]
    omega

theorem parseInt_notNum {c : Char} (h1 : charToDigit c = none) (h2 : c ≠ '-')
    (r : List Char) : parseInt (c :: r) = none := by
  simp [parseInt, h2, parseDigits, h1]

/-- Characters that can begin a serialized JSON value. -/
def startChar (c : Char) : Bool :=
  (charToDigit c).isSome || c = 'n' || c = 't' || c = 'f' || c = '"' || c = '[' ||
    c = '{' || c = '-'

theorem startChar_ne_rbracket {c : Char} (h : startChar c = true) : c ≠ ']' := by
  rintro rfl
  simp [startChar, charToDigit] at h

theorem startChar_ne_rbrace {c : Char} (h : startChar c = true) : c ≠ '}' := by
  rintro rfl
  simp [startChar, charToDigit] at h

theorem printNat_start (n : Nat) :
    ∃ c cs, printNat n = c :: cs ∧ startChar c = true := by
  rw [printNat_eq_map]
  obtain ⟨d, ds, hds⟩ : ∃ d ds, bigDigits n = d :: ds := by
    cases h : bigDigits n with
    | nil => exact absurd h (bigDigits_ne_nil _)
    | cons d ds => exact ⟨d, ds, rfl⟩
  refine ⟨digitToChar d, ds.map digitToChar, by simp [hds], ?_⟩
  have hd10 : d < 10 := bigDigits_lt _ d (by rw [hds]; simp)
  simp [startChar, charToDigit_digitToChar hd10]

theorem dumpVal_start (v : JValue) :
    ∃ c cs, dumpVal v = c :: cs ∧ startChar c = true := by
  cases v with
  | null => exact ⟨'n', ['u', 'l', 'l'], by simp [dumpVal], by decide⟩
  | bool b =>
    cases b with
    | false => exact ⟨'f', ['a', 'l', 's', 'e'], by simp [dumpVal], by decide⟩
    | true => exact ⟨'t', ['r', 'u', 'e'], by simp [dumpVal], by decide⟩
  | num i =>
    by_cases h : i < 0
    · exact ⟨'-', printNat i.natAbs, by simp [dumpVal, printInt, h], by decide⟩
    · obtain ⟨c, cs, hc, hs⟩ := printNat_start i.natAbs
      exact ⟨c, cs, by simp [dumpVal, printInt, h, hc], hs⟩
  | str s => exact ⟨'"', escapeChars s.data ++ ['"'], by simp [dumpVal], by decide⟩
  | arr xs => exact ⟨'[', dumpArr xs ++ [']'], by simp [dumpVal], by decide⟩
  | obj ms => exact ⟨'{', dumpObj ms ++ ['}'], by simp [dumpVal], by decide⟩

theorem dumpArr_cons_eq_append (x : JValue) (xs : List JValue) :
    ∃ t, dumpArr (x :: xs) = dumpVal x ++ t := by
  cases xs with
  | nil => exact ⟨[], by simp [dumpArr]⟩
  | cons y ys => exact ⟨',' :: dumpArr (y :: ys), by simp [dumpArr]⟩

theorem dumpObj_cons_eq (k : String) (v : JValue) (ms : List (String × JValue)) :
    ∃ t, dumpObj ((k, v) :: ms) = '"' :: t := by
  cases ms with
  | nil => exact ⟨escapeChars k.data ++ '"' :: ':' :: dumpVal v, by simp [dumpObj]⟩
  | cons m2 ms2 =>
    exact ⟨(escapeChars k.data ++ '"' :: ':' :: dumpVal v) ++ ',' :: dumpObj (m2 :: ms2),
      by simp [dumpObj]⟩

mutual

theorem parseVal_dump (v : JValue) (f : Nat) (rest : List Char)
    (hrest : headNotDigit rest = true) :
    parseVal (f + nVal v) (dumpVal v ++ rest) = some (v, rest) := by
  cases v with
  | null =>
    have hn : parseInt ('n' :: ('u' :: 'l' :: 'l' :: rest)) = none :=
      parseInt_notNum (by decide) (by decide) _
    simp [nVal, dumpVal, parseVal, hn, expects]
  | bool b =>
    cases b with
    | true =>
      have hn : parseInt ('t' :: ('r' :: 'u' :: 'e' :: rest)) = none :=
        parseInt_notNum (by decide) (by decide) _
      simp [nVal, dumpVal, parseVal, hn, expects]
    | false =>
      have hn : parseInt ('f' :: ('a' :: 'l' :: 's' :: 'e' :: rest)) = none :=
        parseInt_notNum (by decide) (by decide) _
      simp [nVal, dumpVal, parseVal, hn, expects]
  | num i =>
    simp [nVal, dumpVal, parseVal, parseInt_printInt i rest hrest]
  | str s =>
    have hq : parseInt ('"' :: (escapeChars s.data ++ '"' :: rest)) = none :=
      parseInt_notNum (by decide) (by decide) _
    simp [nVal, dumpVal, parseVal, hq, parseStrBody_escape, String.mk_data]
  | arr xs =>
    cases xs with
    | nil =>
      have hb : parseInt ('[' :: ']' :: rest) = none :=
        parseInt_notNum (by decide) (by decide) _
      simp [nVal, nArr, dumpVal, dumpArr, parseVal, hb]
    | cons x xs2 =>
      rw [show f + nVal (.arr (x :: xs2)) = (f + nArr (x :: xs2)) + 1 from by
        simp [nVal]; omega]
      obtain ⟨t, ht⟩ := dumpArr_cons_eq_append x xs2
      obtain ⟨c0, cs0, hc0, hs0⟩ := dumpVal_start x
      have hb : parseInt ('[' :: (dumpArr (x :: xs2) ++ ']' :: rest)) = none :=
        parseInt_notNum (by decide) (by decide) _
      have hhead : (dumpArr (x :: xs2) ++ ']' :: rest).head? = some c0 := by
        rw [ht, hc0]
        simp
      have hne : c0 ≠ ']' := startChar_ne_rbracket hs0
      simp only [dumpVal, List.cons_append, List.append_assoc, List.singleton_append]
      simp [parseVal, hb, hhead, hne, parseElems_dump x xs2 f rest]
  | obj ms =>
    cases ms with
    | nil =>
      have hb : parseInt ('{' :: '}' :: rest) = none :=
        parseInt_notNum (by decide) (by decide) _
      simp [nVal, nObj, dumpVal, dumpObj, parseVal, hb]
    | cons m ms2 =>
      obtain ⟨k, v⟩ := m
      rw [show f + nVal (.obj ((k, v) :: ms2)) = (f + nObj ((k, v) :: ms2)) + 1 from by
        simp [nVal]; omega]
      obtain ⟨t, ht⟩ := dumpObj_cons_eq k v ms2
      have hb : parseInt ('{' :: (dumpObj ((k, v) :: ms2) ++ '}' :: rest)) = none :=
        parseInt_notNum (by decide) (by decide) _
      have hhead : (dumpObj ((k, v) :: ms2) ++ '}' :: rest).head? = some '"' := by
        rw [ht]
        simp
      simp only [dumpVal, List.cons_append, List.append_assoc, List.singleton_append]
      simp [parseVal, hb, hhead, parseMembers_dump k v ms2 f rest]
termination_by sizeOf v
decreasing_by all_goals (simp; try omega)

theorem parseElems_dump (x : JValue) (xs : List JValue) (f : Nat) (rest : List Char) :
    parseElems (f + nArr (x :: xs)) (dumpArr (x :: xs) ++ ']' :: rest) =
      some (x :: xs, rest) := by
  cases xs with
  | nil =>
    rw [show f + nArr [x] = (f + nVal x) + 1 from by simp [nArr]; omega]
    have hpv := parseVal_dump x f (']' :: rest) (by rfl)
    simp [dumpArr, parseElems, hpv]
  | cons y ys =>
    rw [show f + nArr (x :: y :: ys) = ((f + nArr (y :: ys)) + nVal x) + 1 from by
      simp [nArr]; omega]
    have hpv := parseVal_dump x (f + nArr (y :: ys))
      (',' :: (dumpArr (y :: ys) ++ ']' :: rest)) (by rfl)
    have hpe : parseElems ((f + nArr (y :: ys)) + nVal x)
        (dumpArr (y :: ys) ++ ']' :: rest) = some (y :: ys, rest) := by
      rw [show (f + nArr (y :: ys)) + nVal x = (f + nVal x) + nArr (y :: ys) from by omega]
      exact parseElems_dump y ys (f + nVal x) rest
    simp only [dumpArr, List.cons_append, List.append_assoc]
    simp [parseElems, hpv, hpe]
termination_by 1 + sizeOf x + sizeOf xs
decreasing_by all_goals (simp; try omega)

theorem parseMembers_dump (k : String) (v : JValue) (ms : List (String × JValue))
    (f : Nat) (rest : List Char) :
    parseMembers (f + nObj ((k, v) :: ms)) (dumpObj ((k, v) :: ms) ++ '}' :: rest) =
      some ((k, v) :: ms, rest) := by
  cases ms with
  | nil =>
    rw [show f + nObj [(k, v)] = (f + nVal v) + 1 from by simp [nObj]; omega]
    have hpv := parseVal_dump v f ('}' :: rest) (by rfl)
    have hsb := parseStrBody_escape k.data (':' :: (dumpVal v ++ '}' :: rest))
    simp only [dumpObj, List.cons_append, List.append_assoc]
    simp [parseMembers, hsb, hpv, String.mk_data]
  | cons m2 ms2 =>
    obtain ⟨k2, v2⟩ := m2
    rw [show f + nObj ((k, v) :: (k2, v2) :: ms2) =
        ((f + nObj ((k2, v2) :: ms2)) + nVal v) + 1 from by simp [nObj]; omega]
    have hpv := parseVal_dump v (f + nObj ((k2, v2) :: ms2))
      (',' :: (dumpObj ((k2, v2) :: ms2) ++ '}' :: rest)) (by rfl)
    have hpm : parseMembers ((f + nObj ((k2, v2) :: ms2)) + nVal v)
        (dumpObj ((k2, v2) :: ms2) ++ '}' :: rest) = some ((k2, v2) :: ms2, rest) := by
      rw [show (f + nObj ((k2, v2) :: ms2)) + nVal v =
        (f + nVal v) + nObj ((k2, v2) :: ms2) from by omega]
      exact parseMembers_dump k2 v2 ms2 (f + nVal v) rest
    have hsb := parseStrBody_escape k.data
      (':' :: (dumpVal v ++ ',' :: (dumpObj ((k2, v2) :: ms2) ++ '}' :: rest)))
    simp only [dumpObj, List.cons_append, List.append_assoc]
    simp [parseMembers, hsb, hpv, hpm, String.mk_data]
termination_by 1 + sizeOf v + sizeOf ms
decreasing_by all_goals (simp; try omega)

end

theorem printNat_length_pos (n : Nat) : 1 ≤ (printNat n).length := by
  rw [printNat_eq_map]
  have h := bigDigits_ne_nil n
  simpa using List.length_pos.mpr h

mutual

theorem nVal_le (v : JValue) : nVal v ≤ (dumpVal v).length := by
  cases v with
  | null => simp [nVal, dumpVal]
  | bool b => cases b with
    | true => simp [nVal, dumpVal]
    | false => simp [nVal, dumpVal]
  | num i =>
    have h := printNat_length_pos i.natAbs
    by_cases hneg : i < 0
    · simp [nVal, dumpVal, printInt, hneg]
    · simp [nVal, dumpVal, printInt, hneg]
      omega
  | str s => simp [nVal, dumpVal]
  | arr xs =>
    cases xs with
    | nil => simp [nVal, nArr, dumpVal, dumpArr]
    | cons x xs2 =>
      have h := nArr_le x xs2
      simp [nVal, dumpVal]
      omega
  | obj ms =>
    cases ms with
    | nil => simp [nVal, nObj, dumpVal, dumpObj]
    | cons m ms2 =>
      obtain ⟨k, v2⟩ := m
      have h := nObj_le k v2 ms2
      simp [nVal, dumpVal]
      omega
termination_by sizeOf v
decreasing_by all_goals (simp; try omega)

theorem nArr_le (x : JValue) (xs : List JValue) :
    nArr (x :: xs) ≤ (dumpArr (x :: xs)).length + 1 := by
  cases xs with
  | nil =>
    have h := nVal_le x
    simp [nArr, dumpArr]
    omega
  | cons y ys =>
    have h1 := nVal_le x
    have h2 := nArr_le y ys
    simp only [nArr] at h2
    simp [nArr, dumpArr]
    omega
termination_by 1 + sizeOf x + sizeOf xs
decreasing_by all_goals (simp; try omega)

theorem nObj_le (k : String) (v : JValue) (ms : List (String × JValue)) :
    nObj ((k, v) :: ms) ≤ (dumpObj ((k, v) :: ms)).length + 1 := by
  cases ms with
  | nil =>
    have h := nVal_le v
    simp [nObj, dumpObj]
    omega
  | cons m2 ms2 =>
    obtain ⟨k2, v2⟩ := m2
    have h1 := nVal_le v
    have h2 := nObj_le k2 v2 ms2
    simp only [nObj] at h2
    simp [nObj, dumpObj]
    omega
termination_by 1 + sizeOf v + sizeOf ms
decreasing_by all_goals (simp; try omega)

end

theorem string_data_mk (l : List Char) : (String.mk l).data = l := rfl

theorem string_length_mk (l : List Char) : (String.mk l).length = l.length := rfl

/-- The JSON codec round-trips: `json.loads` is a left inverse of
`json.dumps` on every JSON-encodable value. -/
theorem loads_dumps (v : JValue) : loads (dumps v) = some v := by
  have hb : nVal v ≤ (dumpVal v).length + 1 := le_trans (nVal_le v) (by omega)
  have h := parseVal_dump v ((dumpVal v).length + 1 - nVal v) [] (by rfl)
  rw [show ((dumpVal v).length + 1 - nVal v) + nVal v = (dumpVal v).length + 1 from by
    omega] at h
  simp only [List.append_nil] at h
  simp [loads, dumps, string_data_mk, string_length_mk, h]

/-! ### The database model (`db.py`) -/

/-- Model of `datetime.datetime` values. The library's calendar structure
is irrelevant here; an abstract tick counter with an injective textual
rendering is enough for every property below. -/
abbrev Datetime := Nat

/-- Model of `datetime.datetime.isoformat`. -/
def isoformat (t : Datetime) : String := Nat.repr t

/-- A row of the `jobs` table (schema in `_init_jobs_table`, db.py lines
187-206; `job_id` is the primary key, every other column nullable). -/
structure JobRow where
  job_id : String
  job_type : Option String
  status : Option String
  data : Option String
  error : Option String
  requested_timestamp : Option Datetime
  finished_timestamp : Option Datetime
  sent_data : Option String
  result_url : Option String
  api_key : Option String
  job_key : Option String
  deriving Repr, DecidableEq

/-- A row of the `metadata` table (`_init_metadata_table`, db.py lines
209-220; `(job_id, key)` is the primary key). -/
structure MetadataRow where
  job_id : String
  key : String
  value : String
  type : String
  deriving Repr, DecidableEq

/-- A row of the `logs` table (`_init_logs_table`, db.py lines 223-237). -/
structure LogRow where
  job_id : String
  timestamp : Option Datetime
  message : Option String
  level : Option String
  module : Option String
  funcName : Option String
  lineno : Option Int
  deriving Repr, DecidableEq

/-- The visible database state: the three tables, rows in insertion
order. -/
structure Store where
  jobs : List JobRow
  metadata : List MetadataRow
  logs : List LogRow
  deriving Repr, DecidableEq

/-- A freshly initialised database (`init` against an empty target). -/
def Store.empty : Store := ⟨[], [], []⟩

/-- Errors surfaced by the storage layer. -/
inductive DBError where
  /-- primary-key violation on `jobs` (`job_id` already present) -/
  | duplicateJob : DBError
  /-- primary-key violation on `metadata` (`(job_id, key)` already present) -/
  | duplicateMetadata : DBError
  /-- a stored payload fails to decode as JSON (`json.loads` raises) -/
  | decodeError : DBError
  deriving Repr, DecidableEq

/-- Connection/transaction events performed by `add_pending_job`, in
order. -/
inductive Event where
  | connect : Event
  | beginTrans : Event
  | execInsertJob : Event
  | execInsertMetadata : Event
  | commit : Event
  | rollback : Event
  | close : Event
  deriving Repr, DecidableEq

/-- Python falsiness (`not value`) on JSON-encodable values. -/
def pyFalsy : JValue → Bool
  | .null => true
  | .bool b => !b
  | .num n => n == 0
  | .str s => s.isEmpty
  | .arr l => l.isEmpty
  | .obj l => l.isEmpty

/-- Model of `if not data: data = \x7b\x7d` (db.py lines 126-127). -/
def normalizeData : Option JValue → JValue
  | none => .obj []
  | some v => if pyFalsy v then .obj [] else v

/-- Model of `if not metadata: metadata = \x7b\x7d` (db.py lines 129-130); on a
dict-typed argument this is the identity up to replacing a missing or
empty dict by the empty dict. -/
def normalizeMetadata : Option (List (String × JValue)) → List (String × JValue)
  | none => []
  | some l => l

/-- The staged metadata inserts of `add_pending_job` (db.py lines 147-158):
a plain string value is stored verbatim with type tag "string"; any other
value is JSON-serialized and tagged "json". -/
def metadataInserts (jobId : String) (metadata : List (String × JValue)) :
    List MetadataRow :=
  metadata.map fun kv =>
    match kv.2 with
    | .str sv => { job_id := jobId, key := kv.1, value := sv, type := "string" }
    | v => { job_id := jobId, key := kv.1, value := dumps v, type := "json" }

/-- The `jobs` row staged by `add_pending_job` (db.py lines 135-143). -/
def pendingJobRow (now : Datetime) (job_id job_key job_type : String)
    (api_key : Option String) (data : Option JValue) (result_url : Option String) :
    JobRow :=
  { job_id := job_id, job_type := some job_type, status := some "pending",
    data := none, error := none,
    requested_timestamp := some now, finished_timestamp := none,
    sent_data := some (dumps (normalizeData data)), result_url := result_url,
    api_key := api_key, job_key := some job_key }

/-- An open transaction: `base` is the visible state restored on rollback,
`work` the staged state published on commit. -/
structure Txn where
  base : Store
  work : Store

/-- Model of `conn.execute(JOBS_TABLE.insert().values(...))` inside a transaction:
raises on a `job_id` primary-key violation. -/
def execInsertJobRow (t : Txn) (row : JobRow) : Except DBError Txn :=
  if t.work.jobs.any (fun r => r.job_id == row.job_id) then .error .duplicateJob
  else .ok { t with work := { t.work with jobs := t.work.jobs ++ [row] } }

/-- Duplicate entry within a list of primary keys. -/
def hasDupPK : List (String × String) → Bool
  | [] => false
  | p :: t => t.contains p || hasDupPK t

/-- The staged rows violate the `(job_id, key)` primary key, either among
themselves or against the rows already present. -/
def metaPKviolation (existing : List MetadataRow) (rows : List MetadataRow) : Bool :=
  hasDupPK (rows.map fun r => (r.job_id, r.key)) ||
    rows.any (fun r => existing.any fun e => e.job_id == r.job_id && e.key == r.key)

/-- Model of `conn.execute(METADATA_TABLE.insert(), inserts)`: raises on a
`(job_id, key)` primary-key violation. -/
def execInsertMetadataRows (t : Txn) (rows : List MetadataRow) : Except DBError Txn :=
  if metaPKviolation t.work.metadata rows then .error .duplicateMetadata
  else .ok { t with work := { t.work with metadata := t.work.metadata ++ rows } }

/-- Model of `add_pending_job` (db.py lines 88-166). Arguments follow the
Python signature; `now` stands for `datetime.datetime.now()`. Returns the
outcome (`ok`, or the exception re-raised by the bare `raise` in the
`except` block), the visible store after the call (the committed
transaction state on success, the untouched base state after rollback) and
the ordered connection/transaction events (`conn = ENGINE.connect()`,
`trans = conn.begin()`, the `conn.execute` calls, `trans.commit()` or
`trans.rollback()`, and the `conn.close()` of the `finally` block). -/
def add_pending_job (s : Store) (now : Datetime) (job_id job_key job_type : String)
    (api_key : Option String) (data : Option JValue := none)
    (metadata : Option (List (String × JValue)) := none)
    (result_url : Option String := none) :
    Except DBError Unit × Store × List Event :=
  let metadataDict := normalizeMetadata metadata
  let t : Txn := { base := s, work := s }
  let row : JobRow := pendingJobRow now job_id job_key job_type api_key data result_url
  match execInsertJobRow t row with
  | .error e =>
    (.error e, t.base, [.connect, .beginTrans, .execInsertJob, .rollback, .close])
  | .ok t1 =>
    let inserts := metadataInserts job_id metadataDict
    if inserts.isEmpty then
      (.ok (), t1.work, [.connect, .beginTrans, .execInsertJob, .commit, .close])
    else
      match execInsertMetadataRows t1 inserts with
      | .error e =>
        (.error e, t1.base,
          [.connect, .beginTrans, .execInsertJob, .execInsertMetadata, .rollback,
            .close])
      | .ok t2 =>
        (.ok (), t2.work,
          [.connect, .beginTrans, .execInsertJob, .execInsertMetadata, .commit,
            .close])

/-- The UPDATE applied by `mark_job_as_completed` to a matching row
(db.py lines 178-184). -/
def completedRow (r : JobRow) (now : Datetime) (data : Option String) : JobRow :=
  { r with status := some "complete", finished_timestamp := some now,
           api_key := none, data := data }

/-- Model of `mark_job_as_completed` (db.py lines 169-184): one
conditional UPDATE setting status, finished_timestamp, api_key and data on
every row matching `job_id`. Note that the `data` argument flows into the
text column verbatim — the function applies no JSON encoding. -/
def mark_job_as_completed (s : Store) (now : Datetime) (job_id : String)
    (data : Option String := none) : Store :=
  { s with jobs := s.jobs.map fun r =>
      if r.job_id == job_id then completedRow r now data else r }

/-- One entry of the `logs` list returned by `get_job`: a log row with the
`job_id` field popped (db.py lines 260-262); the remaining fields are
returned unconverted. -/
structure LogRecord where
  timestamp : Option Datetime
  message : Option String
  level : Option String
  module : Option String
  funcName : Option String
  lineno : Option Int
  deriving Repr, DecidableEq

/-- Model of `remove_job_id` (db.py lines 260-262). -/
def stripJobId (r : LogRow) : LogRecord :=
  { timestamp := r.timestamp, message := r.message, level := r.level,
    module := r.module, funcName := r.funcName, lineno := r.lineno }

/-- Model of `_get_logs` (db.py lines 254-263): select the rows matching
`job_id` (the query carries no ORDER BY clause, so rows arrive in table
order) and strip `job_id` from each. -/
def get_logs (s : Store) (job_id : String) : List LogRecord :=
  (s.logs.filter fun r => r.job_id == job_id).map stripJobId

/-- Decode one metadata row (db.py lines 246-250): a "json"-tagged value
is decoded with `json.loads` (which raises on invalid text), any other tag
yields the stored text verbatim. -/
def decodeMetaRow (r : MetadataRow) : Except DBError (String × JValue) :=
  if r.type == "json" then
    match loads r.value with
    | some v => .ok (r.key, v)
    | none => .error .decodeError
  else .ok (r.key, .str r.value)

/-- The loop of `_get_metadata`, raising at the first undecodable row. -/
def decodeMetaRows : List MetadataRow → Except DBError (List (String × JValue))
  | [] => .ok []
  | r :: t =>
    match decodeMetaRow r with
    | .error e => .error e
    | .ok p =>
      match decodeMetaRows t with
      | .error e => .error e
      | .ok ps => .ok (p :: ps)

/-- Model of `_get_metadata` (db.py lines 240-251): select the rows for
`job_id` and rebuild the metadata dict. -/
def get_metadata (s : Store) (job_id : String) :
    Except DBError (List (String × JValue)) :=
  decodeMetaRows (s.metadata.filter fun r => r.job_id == job_id)

/-- The dictionary representation of a job built by `get_job` (db.py lines
69-84): JSON payload columns are decoded, timestamp columns rendered via
`isoformat`, the remaining text columns pass through `unicode` (the
identity on strings), and the metadata dict and logs list are attached. -/
structure JobRecord where
  job_id : String
  job_type : Option String
  status : Option String
  data : Option JValue
  error : Option JValue
  requested_timestamp : Option String
  finished_timestamp : Option String
  sent_data : Option JValue
  result_url : Option String
  api_key : Option String
  job_key : Option String
  metadata : List (String × JValue)
  logs : List LogRecord
  deriving Repr

/-- Model of `json.loads` applied to a nullable payload column (db.py lines 73-76):
a null column stays null, otherwise the text must parse. -/
def decodeColumn : Option String → Except DBError (Option JValue)
  | none => .ok none
  | some s =>
    match loads s with
    | some v => .ok (some v)
    | none => .error .decodeError

/-- Model of `get_job` (db.py lines 56-85). -/
def get_job (s : Store) (job_id : String) : Except DBError (Option JobRecord) :=
  match s.jobs.find? (fun r => r.job_id == job_id) with
  | none => .ok none
  | some row => do
    let sent ← decodeColumn row.sent_data
    let dat ← decodeColumn row.data
    let err ← decodeColumn row.error
    let md ← get_metadata s job_id
    .ok (some
      { job_id := row.job_id, job_type := row.job_type, status := row.status,
        data := dat, error := err,
        requested_timestamp := row.requested_timestamp.map isoformat,
        finished_timestamp := row.finished_timestamp.map isoformat,
        sent_data := sent, result_url := row.result_url, api_key := row.api_key,
        job_key := row.job_key, metadata := md, logs := get_logs s job_id })

/-! ### Behaviour of the write path -/

theorem add_pending_job_dup (s : Store) (now : Datetime) (jid jk jt : String)
    (ak : Option String) (d : Option JValue) (md : Option (List (String × JValue)))
    (ru : Option String)
    (h : s.jobs.any (fun r => r.job_id == jid) = true) :
    add_pending_job s now jid jk jt ak d md ru =
      (.error .duplicateJob, s,
        [.connect, .beginTrans, .execInsertJob, .rollback, .close]) := by
  unfold add_pending_job execInsertJobRow
  simp [pendingJobRow, h]

theorem add_pending_job_metaDup (s : Store) (now : Datetime) (jid jk jt : String)
    (ak : Option String) (d : Option JValue) (md : Option (List (String × JValue)))
    (ru : Option String)
    (h1 : s.jobs.any (fun r => r.job_id == jid) = false)
    (h2 : (metadataInserts jid (normalizeMetadata md)).isEmpty = false)
    (h3 : metaPKviolation s.metadata (metadataInserts jid (normalizeMetadata md)) = true) :
    add_pending_job s now jid jk jt ak d md ru =
      (.error .duplicateMetadata, s,
        [.connect, .beginTrans, .execInsertJob, .execInsertMetadata, .rollback,
          .close]) := by
  unfold add_pending_job execInsertJobRow execInsertMetadataRows
  simp [pendingJobRow, h1, h2, h3]

theorem add_pending_job_ok (s : Store) (now : Datetime) (jid jk jt : String)
    (ak : Option String) (d : Option JValue) (md : Option (List (String × JValue)))
    (ru : Option String)
    (h1 : s.jobs.any (fun r => r.job_id == jid) = false)
    (h3 : metaPKviolation s.metadata (metadataInserts jid (normalizeMetadata md)) = false) :
    add_pending_job s now jid jk jt ak d md ru =
      (.ok (),
        { s with
            jobs := s.jobs ++ [pendingJobRow now jid jk jt ak d ru],
            metadata := s.metadata ++ metadataInserts jid (normalizeMetadata md) },
        [.connect, .beginTrans, .execInsertJob] ++
          (if (metadataInserts jid (normalizeMetadata md)).isEmpty then []
            else [.execInsertMetadata]) ++ [.commit, .close]) := by
  unfold add_pending_job execInsertJobRow execInsertMetadataRows
  by_cases h2 : (metadataInserts jid (normalizeMetadata md)).isEmpty
  · have h2e : metadataInserts jid (normalizeMetadata md) = [] := by
      simpa [List.isEmpty_iff] using h2
    simp [pendingJobRow, h1, h2, h2e]
  · simp [pendingJobRow, h1, h2, h3]

/-! ### Behaviour of the read path -/

theorem find?_append_fresh (jobs : List JobRow) (row : JobRow) (jid : String)
    (hjobs : ∀ r ∈ jobs, (r.job_id == jid) = false) (hrow : (row.job_id == jid) = true) :
    (jobs ++ [row]).find? (fun r => r.job_id == jid) = some row := by
  induction jobs with
  | nil => simp [List.find?, hrow]
  | cons r t ih =>
    have hr := hjobs r (by simp)
    have ht : ∀ x ∈ t, (x.job_id == jid) = false := fun x hx => hjobs x (by simp [hx])
    simp [List.find?, hr, ih ht]

theorem metadataInserts_job_id (jid : String) (mdl : List (String × JValue)) :
    ∀ r ∈ metadataInserts jid mdl, r.job_id = jid := by
  intro r hr
  simp only [metadataInserts, List.mem_map] at hr
  obtain ⟨kv, _, hkv⟩ := hr
  cases h : kv.2 <;> simp [h] at hkv <;> simp [← hkv]

theorem decodeMetaRows_inserts (jid : String) (mdl : List (String × JValue)) :
    decodeMetaRows (metadataInserts jid mdl) = .ok mdl := by
  induction mdl with
  | nil => rfl
  | cons kv t ih =>
    obtain ⟨k, v⟩ := kv
    have hstep : metadataInserts jid ((k, v) :: t) =
        (match v with
          | JValue.str sv =>
            ({ job_id := jid, key := k, value := sv, type := "string" } : MetadataRow)
          | v => { job_id := jid, key := k, value := dumps v, type := "json" }) ::
          metadataInserts jid t := by
      simp [metadataInserts]
    rw [hstep]
    cases v <;> simp [decodeMetaRows, decodeMetaRow, ih, loads_dumps]

theorem get_metadata_fresh (jobs : List JobRow) (md0 : List MetadataRow)
    (lg : List LogRow) (jid : String) (mdl : List (String × JValue))
    (h4 : ∀ r ∈ md0, (r.job_id == jid) = false) :
    get_metadata ⟨jobs, md0 ++ metadataInserts jid mdl, lg⟩ jid = .ok mdl := by
  unfold get_metadata
  have hf0 : md0.filter (fun r => r.job_id == jid) = [] := by
    simp [List.filter_eq_nil_iff]
    intro r hr
    simpa using h4 r hr
  have hf1 : (metadataInserts jid mdl).filter (fun r => r.job_id == jid) =
      metadataInserts jid mdl := by
    rw [List.filter_eq_self]
    intro r hr
    simp [metadataInserts_job_id jid mdl r hr]
  simp only [List.filter_append, hf0, hf1, List.nil_append]
  exact decodeMetaRows_inserts jid mdl

theorem get_job_found (s : Store) (jid : String) (row : JobRow)
    (sd dd ed : Option JValue) (mdv : List (String × JValue))
    (hfind : s.jobs.find? (fun r => r.job_id == jid) = some row)
    (hs : decodeColumn row.sent_data = .ok sd)
    (hd : decodeColumn row.data = .ok dd)
    (he : decodeColumn row.error = .ok ed)
    (hm : get_metadata s jid = .ok mdv) :
    get_job s jid = .ok (some
      { job_id := row.job_id, job_type := row.job_type, status := row.status,
        data := dd, error := ed,
        requested_timestamp := row.requested_timestamp.map isoformat,
        finished_timestamp := row.finished_timestamp.map isoformat,
        sent_data := sd, result_url := row.result_url, api_key := row.api_key,
        job_key := row.job_key, metadata := mdv, logs := get_logs s jid }) := by
  unfold get_job
  rw [hfind]
  simp only [hs, hd, he, hm]
  rfl

/-! ### The claims -/

/-- C6: for every job_id with no matching job row, `get_job` returns None
(`Except.ok none`) and raises nothing — absence is an ordinary result,
distinct from the `Except.error` used for storage/decode faults. -/
theorem C6_get_job_absent_returns_none (s : Store) (job_id : String)
    (h : s.jobs.find? (fun r => r.job_id == job_id) = none) :
    get_job s job_id = .ok none := by
  unfold get_job
  rw [h]

theorem C6_witness :
    Store.empty.jobs.find? (fun r => r.job_id == "j") = none ∧
    get_job Store.empty "j" = .ok none :=
  ⟨rfl, C6_get_job_absent_returns_none Store.empty "j" rfl⟩

/-- C8: `mark_job_as_completed` on a job_id with no matching row is a
no-op: its single conditional UPDATE matches zero rows and the store is
returned unchanged; the function is total, so no error is reported. -/
theorem C8_mark_completed_absent_noop (s : Store) (now : Datetime) (job_id : String)
    (data : Option String)
    (h : ∀ r ∈ s.jobs, (r.job_id == job_id) = false) :
    mark_job_as_completed s now job_id data = s := by
  have hmap : ∀ l : List JobRow, (∀ r ∈ l, (r.job_id == job_id) = false) →
      (l.map fun r =>
        if r.job_id == job_id then completedRow r now data else r) = l := by
    intro l hl
    induction l with
    | nil => rfl
    | cons r t ih =>
      have hr := hl r (by simp)
      have ht : ∀ x ∈ t, (x.job_id == job_id) = false := fun x hx => hl x (by simp [hx])
      rw [List.map_cons, ih ht, if_neg (by simp [hr])]
  unfold mark_job_as_completed
  rw [hmap s.jobs h]

theorem C8_witness :
    mark_job_as_completed Store.empty 5 "j" (some "d") = Store.empty :=
  C8_mark_completed_absent_noop Store.empty 5 "j" (some "d") (by simp [Store.empty])

/-- C1: `add_pending_job` commits atomically: on success the job row and
every staged metadata row become visible together (and nothing else
changes); on any failure during the transaction the rollback makes the
visible store exactly the pre-call store, the rollback event precedes the
connection close, and the error of the failing insert is re-raised; the
connection close event is the last event on every exit path. -/
theorem C1_add_pending_job_atomic (s : Store) (now : Datetime) (jid jk jt : String)
    (ak : Option String) (d : Option JValue) (md : Option (List (String × JValue)))
    (ru : Option String) :
    ((add_pending_job s now jid jk jt ak d md ru).1 = .ok () →
      (add_pending_job s now jid jk jt ak d md ru).2.1 =
        { s with
            jobs := s.jobs ++ [pendingJobRow now jid jk jt ak d ru],
            metadata := s.metadata ++ metadataInserts jid (normalizeMetadata md) }) ∧
    (∀ e, (add_pending_job s now jid jk jt ak d md ru).1 = .error e →
      (add_pending_job s now jid jk jt ak d md ru).2.1 = s ∧
      Event.rollback ∈ (add_pending_job s now jid jk jt ak d md ru).2.2) ∧
    (add_pending_job s now jid jk jt ak d md ru).2.2.getLast? = some Event.close := by
  by_cases h1 : s.jobs.any (fun r => r.job_id == jid)
  · rw [add_pending_job_dup s now jid jk jt ak d md ru h1]
    refine ⟨by simp, by simp, by simp⟩
  · rw [Bool.not_eq_true] at h1
    by_cases h3 : metaPKviolation s.metadata (metadataInserts jid (normalizeMetadata md))
    · have h2 : (metadataInserts jid (normalizeMetadata md)).isEmpty = false := by
        cases he : (metadataInserts jid (normalizeMetadata md)).isEmpty
        · rfl
        · exfalso
          have : metadataInserts jid (normalizeMetadata md) = [] := by
            simpa [List.isEmpty_iff] using he
          rw [this] at h3
          simp [metaPKviolation, hasDupPK] at h3
      rw [add_pending_job_metaDup s now jid jk jt ak d md ru h1 h2 h3]
      refine ⟨by simp, by simp, by simp⟩
    · rw [Bool.not_eq_true] at h3
      rw [add_pending_job_ok s now jid jk jt ak d md ru h1 h3]
      refine ⟨fun _ => rfl, by simp, ?_⟩
      show (([Event.connect, Event.beginTrans, Event.execInsertJob] ++
          (if (metadataInserts jid (normalizeMetadata md)).isEmpty then []
            else [Event.execInsertMetadata])) ++ [Event.commit, Event.close]).getLast? =
        some Event.close
      rw [List.getLast?_append_cons]
      rfl

theorem C1_witness :
    ((add_pending_job Store.empty 0 "j" "k" "t" (some "a")
        (some (JValue.num 7)) (some [("m", JValue.str "v")]) none).1 = .ok () →
      (add_pending_job Store.empty 0 "j" "k" "t" (some "a")
        (some (JValue.num 7)) (some [("m", JValue.str "v")]) none).2.1 =
        { Store.empty with
            jobs := Store.empty.jobs ++
              [pendingJobRow 0 "j" "k" "t" (some "a") (some (JValue.num 7)) none],
            metadata := Store.empty.metadata ++
              metadataInserts "j" (normalizeMetadata (some [("m", JValue.str "v")])) }) ∧
    (∀ e, (add_pending_job Store.empty 0 "j" "k" "t" (some "a")
        (some (JValue.num 7)) (some [("m", JValue.str "v")]) none).1 = .error e →
      (add_pending_job Store.empty 0 "j" "k" "t" (some "a")
        (some (JValue.num 7)) (some [("m", JValue.str "v")]) none).2.1 = Store.empty ∧
      Event.rollback ∈ (add_pending_job Store.empty 0 "j" "k" "t" (some "a")
        (some (JValue.num 7)) (some [("m", JValue.str "v")]) none).2.2) ∧
    (add_pending_job Store.empty 0 "j" "k" "t" (some "a")
        (some (JValue.num 7)) (some [("m", JValue.str "v")]) none).2.2.getLast? =
      some Event.close :=
  C1_add_pending_job_atomic Store.empty 0 "j" "k" "t" (some "a")
    (some (JValue.num 7)) (some [("m", JValue.str "v")]) none

theorem metaPKviolation_ne_empty {existing rows : List MetadataRow}
    (h3 : metaPKviolation existing rows = true) : rows.isEmpty = false := by
  cases he : rows.isEmpty
  · rfl
  · exfalso
    have hnil : rows = [] := by simpa [List.isEmpty_iff] using he
    rw [hnil] at h3
    simp [metaPKviolation, hasDupPK] at h3

/-- C4: calling `add_pending_job` a second time with a job_id that already
exists fails with the duplicate-key error surfaced from the jobs primary
key (the spec's DuplicateJobError), and the store — including the job row
and metadata rows written by the first call — is left exactly as the first
call left it. -/
theorem C4_duplicate_create_fails (s : Store) (now1 now2 : Datetime)
    (jid jk jt jk2 jt2 : String) (ak ak2 : Option String) (d d2 : Option JValue)
    (md md2 : Option (List (String × JValue))) (ru ru2 : Option String)
    (s1 : Store) (evs : List Event)
    (h : add_pending_job s now1 jid jk jt ak d md ru = (.ok (), s1, evs)) :
    add_pending_job s1 now2 jid jk2 jt2 ak2 d2 md2 ru2 =
      (.error .duplicateJob, s1,
        [.connect, .beginTrans, .execInsertJob, .rollback, .close]) := by
  have hdup : s1.jobs.any (fun r => r.job_id == jid) = true := by
    by_cases h1 : s.jobs.any (fun r => r.job_id == jid)
    · rw [add_pending_job_dup s now1 jid jk jt ak d md ru h1] at h
      simp at h
    · rw [Bool.not_eq_true] at h1
      by_cases h3 : metaPKviolation s.metadata (metadataInserts jid (normalizeMetadata md))
      · rw [add_pending_job_metaDup s now1 jid jk jt ak d md ru h1
          (metaPKviolation_ne_empty h3) h3] at h
        simp at h
      · rw [Bool.not_eq_true] at h3
        rw [add_pending_job_ok s now1 jid jk jt ak d md ru h1 h3] at h
        have hs1 : s1 = { s with
            jobs := s.jobs ++ [pendingJobRow now1 jid jk jt ak d ru],
            metadata := s.metadata ++ metadataInserts jid (normalizeMetadata md) } := by
          have := congrArg (fun p => p.2.1) h
          simpa using this.symm
        rw [hs1]
        simp [pendingJobRow]
  exact add_pending_job_dup s1 now2 jid jk2 jt2 ak2 d2 md2 ru2 hdup

theorem C4_witness :
    add_pending_job (add_pending_job Store.empty 0 "j" "k" "t" (some "a")
        none none none).2.1 1 "j" "k2" "t2" (some "a2") none none none =
      (.error .duplicateJob,
        (add_pending_job Store.empty 0 "j" "k" "t" (some "a") none none none).2.1,
        [.connect, .beginTrans, .execInsertJob, .rollback, .close]) :=
  C4_duplicate_create_fails Store.empty 0 1 "j" "k" "t" "k2" "t2" (some "a")
    (some "a2") none none none none none none
    (add_pending_job Store.empty 0 "j" "k" "t" (some "a") none none none).2.1
    (add_pending_job Store.empty 0 "j" "k" "t" (some "a") none none none).2.2
    (by rfl)

/-- A job in a terminal state (`complete` or `error`). -/
def JobRow.terminal (r : JobRow) : Prop :=
  r.status = some "complete" ∨ r.status = some "error"

/-- The invariant of C5: a terminal job has a null api_key, and
finished_timestamp is set exactly on terminal jobs. -/
def statusInvariant (s : Store) : Prop :=
  ∀ r ∈ s.jobs,
    (r.terminal → r.api_key = none) ∧ (r.finished_timestamp ≠ none ↔ r.terminal)

/-- Stores reachable from a fresh database through the module's write
operations. -/
inductive Reachable : Store → Prop where
  | empty : Reachable Store.empty
  | create (s : Store) (now : Datetime) (jid jk jt : String) (ak : Option String)
      (d : Option JValue) (md : Option (List (String × JValue))) (ru : Option String) :
      Reachable s → Reachable (add_pending_job s now jid jk jt ak d md ru).2.1
  | complete (s : Store) (now : Datetime) (jid : String) (d : Option String) :
      Reachable s → Reachable (mark_job_as_completed s now jid d)

/-- C5: every reachable store satisfies the terminal-state invariant —
`add_pending_job` establishes it (a fresh row is pending with no
finished_timestamp) and `mark_job_as_completed` preserves it (a terminal
status, the finished_timestamp and the null api_key are written
together). -/
theorem C5_reachable_invariant (s : Store) (h : Reachable s) : statusInvariant s := by
  induction h with
  | empty =>
    intro r hr
    simp [Store.empty] at hr
  | create s now jid jk jt ak d md ru hs ih =>
    by_cases h1 : s.jobs.any (fun r => r.job_id == jid)
    · rw [add_pending_job_dup s now jid jk jt ak d md ru h1]
      exact ih
    · rw [Bool.not_eq_true] at h1
      by_cases h3 : metaPKviolation s.metadata (metadataInserts jid (normalizeMetadata md))
      · rw [add_pending_job_metaDup s now jid jk jt ak d md ru h1
          (metaPKviolation_ne_empty h3) h3]
        exact ih
      · rw [Bool.not_eq_true] at h3
        rw [add_pending_job_ok s now jid jk jt ak d md ru h1 h3]
        intro r hr
        simp only [List.mem_append, List.mem_singleton] at hr
        rcases hr with hr | hr
        · exact ih r hr
        · subst hr
          refine ⟨?_, ?_⟩
          · intro ht
            rcases ht with ht | ht <;> simp [pendingJobRow] at ht
          · simp [pendingJobRow, JobRow.terminal]
  | complete s now jid d hs ih =>
    intro r hr
    simp only [mark_job_as_completed, List.mem_map] at hr
    obtain ⟨r0, hr0, rfl⟩ := hr
    by_cases hm : (r0.job_id == jid) = true
    · rw [if_pos hm]
      refine ⟨fun _ => rfl, ?_⟩
      simp [JobRow.terminal, completedRow]
    · rw [if_neg hm]
      exact ih r0 hr0

theorem C5_witness :
    statusInvariant (mark_job_as_completed
      (add_pending_job Store.empty 0 "j" "k" "t" (some "a") none none none).2.1
      1 "j" (some "d")) :=
  C5_reachable_invariant _
    (Reachable.complete _ 1 "j" (some "d")
      (Reachable.create Store.empty 0 "j" "k" "t" (some "a") none none none
        Reachable.empty))

theorem normalizeData_obj (l : List (String × JValue)) :
    normalizeData (some (JValue.obj l)) = JValue.obj l := by
  cases l <;> simp [normalizeData, pyFalsy]

theorem any_eq_false_mem {l : List JobRow} {jid : String}
    (h : l.any (fun r => r.job_id == jid) = false) :
    ∀ r ∈ l, (r.job_id == jid) = false := by
  intro r hr
  cases hb : (r.job_id == jid) with
  | false => rfl
  | true =>
    exfalso
    have ht : l.any (fun r => r.job_id == jid) = true := List.any_eq_true.mpr ⟨r, hr, hb⟩
    rw [h] at ht
    exact Bool.false_ne_true ht

/-- Running `add_pending_job` followed by `get_job` on the same job_id: the full
reconstructed record. -/
theorem create_get_spec (s : Store) (now : Datetime) (jid jk jt : String)
    (ak : Option String) (d : Option JValue) (mdl : List (String × JValue))
    (ru : Option String)
    (h1 : s.jobs.any (fun r => r.job_id == jid) = false)
    (h3 : metaPKviolation s.metadata (metadataInserts jid mdl) = false)
    (h4 : ∀ r ∈ s.metadata, (r.job_id == jid) = false) :
    get_job (add_pending_job s now jid jk jt ak d (some mdl) ru).2.1 jid =
      .ok (some
        { job_id := jid, job_type := some jt, status := some "pending",
          data := none, error := none,
          requested_timestamp := some (isoformat now), finished_timestamp := none,
          sent_data := some (normalizeData d), result_url := ru,
          api_key := ak, job_key := some jk,
          metadata := mdl, logs := get_logs s jid }) := by
  rw [add_pending_job_ok s now jid jk jt ak d (some mdl) ru h1 h3]
  have hfind : ({ s with
      jobs := s.jobs ++ [pendingJobRow now jid jk jt ak d ru],
      metadata := s.metadata ++ metadataInserts jid (normalizeMetadata (some mdl))
      } : Store).jobs.find? (fun r => r.job_id == jid) =
      some (pendingJobRow now jid jk jt ak d ru) :=
    find?_append_fresh s.jobs _ jid (any_eq_false_mem h1) (by simp [pendingJobRow])
  have hs : decodeColumn (pendingJobRow now jid jk jt ak d ru).sent_data =
      .ok (some (normalizeData d)) := by
    simp [pendingJobRow, decodeColumn, loads_dumps]
  have hm : get_metadata ({ s with
      jobs := s.jobs ++ [pendingJobRow now jid jk jt ak d ru],
      metadata := s.metadata ++ metadataInserts jid (normalizeMetadata (some mdl))
      } : Store) jid = .ok mdl :=
    get_metadata_fresh _ s.metadata s.logs jid mdl h4
  rw [get_job_found _ jid (pendingJobRow now jid jk jt ak d ru)
    (some (normalizeData d)) none none mdl hfind hs rfl rfl hm]
  simp [pendingJobRow, get_logs]

/-- C9: for all valid inputs, `add_pending_job` followed by `get_job`
returns a record whose fields equal the supplied inputs — job_id, job_type
and job_key unchanged, result_url preserved (null stays null), sent_data
decoding back to the supplied dict — with status "pending", the api_key
present, data and error null, requested_timestamp rendered in the
canonical textual (isoformat) form, finished_timestamp unset, and the
metadata dict and logs attached. -/
theorem C9_create_then_get_fields (s : Store) (now : Datetime)
    (jid jk jt api_key : String) (dl mdl : List (String × JValue)) (ru : Option String)
    (h1 : s.jobs.any (fun r => r.job_id == jid) = false)
    (h3 : metaPKviolation s.metadata (metadataInserts jid mdl) = false)
    (h4 : ∀ r ∈ s.metadata, (r.job_id == jid) = false) :
    get_job (add_pending_job s now jid jk jt (some api_key) (some (JValue.obj dl))
        (some mdl) ru).2.1 jid =
      .ok (some
        { job_id := jid, job_type := some jt, status := some "pending",
          data := none, error := none,
          requested_timestamp := some (isoformat now), finished_timestamp := none,
          sent_data := some (JValue.obj dl), result_url := ru,
          api_key := some api_key, job_key := some jk,
          metadata := mdl, logs := get_logs s jid }) := by
  rw [create_get_spec s now jid jk jt (some api_key) (some (JValue.obj dl)) mdl ru
    h1 h3 h4]
  rw [normalizeData_obj]

theorem C9_witness :
    get_job (add_pending_job Store.empty 0 "j" "k" "push" (some "secret")
        (some (JValue.obj [("x", JValue.num 1)])) (some [("a", JValue.str "s")])
        (some "http://cb")).2.1 "j" =
      .ok (some
        { job_id := "j", job_type := some "push", status := some "pending",
          data := none, error := none,
          requested_timestamp := some (isoformat 0), finished_timestamp := none,
          sent_data := some (JValue.obj [("x", JValue.num 1)]),
          result_url := some "http://cb",
          api_key := some "secret", job_key := some "k",
          metadata := [("a", JValue.str "s")], logs := get_logs Store.empty "j" }) :=
  C9_create_then_get_fields Store.empty 0 "j" "k" "push" "secret"
    [("x", JValue.num 1)] [("a", JValue.str "s")] (some "http://cb")
    rfl rfl (by simp [Store.empty])

/-- C2: metadata round-trips exactly. The rows staged by `add_pending_job`
keep plain string values verbatim under the type tag "string" (never JSON
re-encoded) and JSON-serialize every non-string value under the tag
"json"; `get_job` afterwards returns a metadata map equal to the input. -/
theorem C2_metadata_roundtrip (s : Store) (now : Datetime) (jid jk jt : String)
    (ak : Option String) (d : Option JValue) (mdl : List (String × JValue))
    (ru : Option String)
    (h1 : s.jobs.any (fun r => r.job_id == jid) = false)
    (h3 : metaPKviolation s.metadata (metadataInserts jid mdl) = false)
    (h4 : ∀ r ∈ s.metadata, (r.job_id == jid) = false) :
    (add_pending_job s now jid jk jt ak d (some mdl) ru).2.1.metadata =
      s.metadata ++ mdl.map (fun kv =>
        match kv.2 with
        | JValue.str sv =>
          ({ job_id := jid, key := kv.1, value := sv, type := "string" } : MetadataRow)
        | v => { job_id := jid, key := kv.1, value := dumps v, type := "json" }) ∧
    (∃ rec, get_job (add_pending_job s now jid jk jt ak d (some mdl) ru).2.1 jid =
        .ok (some rec) ∧ rec.metadata = mdl) := by
  constructor
  · rw [add_pending_job_ok s now jid jk jt ak d (some mdl) ru h1 h3]
    rfl
  · exact ⟨_, create_get_spec s now jid jk jt ak d mdl ru h1 h3 h4, rfl⟩

theorem C2_witness :
    ((add_pending_job Store.empty 0 "j" "k" "t" (some "key") none
        (some [("a", JValue.str "s"),
               ("b", JValue.arr [JValue.num 1, JValue.num 2, JValue.num 3])])
        none).2.1.metadata =
      Store.empty.metadata ++
        [("a", JValue.str "s"),
         ("b", JValue.arr [JValue.num 1, JValue.num 2, JValue.num 3])].map (fun kv =>
          match kv.2 with
          | JValue.str sv =>
            ({ job_id := "j", key := kv.1, value := sv, type := "string" } :
              MetadataRow)
          | v => { job_id := "j", key := kv.1, value := dumps v, type := "json" })) ∧
    (∃ rec, get_job (add_pending_job Store.empty 0 "j" "k" "t" (some "key") none
        (some [("a", JValue.str "s"),
               ("b", JValue.arr [JValue.num 1, JValue.num 2, JValue.num 3])])
        none).2.1 "j" = .ok (some rec) ∧
      rec.metadata = [("a", JValue.str "s"),
        ("b", JValue.arr [JValue.num 1, JValue.num 2, JValue.num 3])]) :=
  C2_metadata_roundtrip Store.empty 0 "j" "k" "t" (some "key") none
    [("a", JValue.str "s"), ("b", JValue.arr [JValue.num 1, JValue.num 2, JValue.num 3])]
    none rfl rfl (by simp [Store.empty])

/-- C10: `add_pending_job` normalizes a falsy data argument (None, the
empty dict, or any other falsy value) to the empty dict before encoding,
so the stored sent_data is always the JSON text of a dict and never null;
a falsy metadata argument is treated as empty and produces zero metadata
rows (and the call succeeds). -/
theorem C10_falsy_normalization (s : Store) (now : Datetime) (jid jk jt : String)
    (ak : Option String) (d : Option JValue) (md : Option (List (String × JValue)))
    (ru : Option String)
    (h1 : s.jobs.any (fun r => r.job_id == jid) = false)
    (hmd : md = none ∨ md = some []) :
    (add_pending_job s now jid jk jt ak d md ru).1 = .ok () ∧
    (add_pending_job s now jid jk jt ak d md ru).2.1.metadata = s.metadata ∧
    (add_pending_job s now jid jk jt ak d md ru).2.1.jobs =
      s.jobs ++ [pendingJobRow now jid jk jt ak d ru] ∧
    ((d = none ∨ (∃ l, d = some (JValue.obj l)) ∨
        (∃ v, d = some v ∧ pyFalsy v = true)) →
      ∃ l2, (pendingJobRow now jid jk jt ak d ru).sent_data =
        some (dumps (JValue.obj l2))) ∧
    ((d = none ∨ (∃ v, d = some v ∧ pyFalsy v = true)) →
      (pendingJobRow now jid jk jt ak d ru).sent_data =
        some (dumps (JValue.obj []))) := by
  have hins : metadataInserts jid (normalizeMetadata md) = [] := by
    rcases hmd with hmd | hmd <;> subst hmd <;> rfl
  have h3 : metaPKviolation s.metadata (metadataInserts jid (normalizeMetadata md)) =
      false := by
    rw [hins]
    rfl
  rw [add_pending_job_ok s now jid jk jt ak d md ru h1 h3, hins]
  refine ⟨rfl, by simp, by simp, ?_, ?_⟩
  · rintro (rfl | ⟨l, rfl⟩ | ⟨v, rfl, hv⟩)
    · exact ⟨[], rfl⟩
    · exact ⟨l, by simp [pendingJobRow, normalizeData_obj]⟩
    · refine ⟨[], ?_⟩
      simp [pendingJobRow, normalizeData, hv]
  · rintro (rfl | ⟨v, rfl, hv⟩)
    · rfl
    · simp [pendingJobRow, normalizeData, hv]

theorem C10_witness :
    ((add_pending_job Store.empty 0 "j" "k" "t" (some "a")
        (some (JValue.obj [])) none none).1 = .ok ()) ∧
    (add_pending_job Store.empty 0 "j" "k" "t" (some "a")
        (some (JValue.obj [])) none none).2.1.metadata = Store.empty.metadata ∧
    (add_pending_job Store.empty 0 "j" "k" "t" (some "a")
        (some (JValue.obj [])) none none).2.1.jobs =
      Store.empty.jobs ++
        [pendingJobRow 0 "j" "k" "t" (some "a") (some (JValue.obj [])) none] ∧
    ((some (JValue.obj []) = (none : Option JValue) ∨
        (∃ l, some (JValue.obj []) = some (JValue.obj l)) ∨
        (∃ v, some (JValue.obj []) = some v ∧ pyFalsy v = true)) →
      ∃ l2, (pendingJobRow 0 "j" "k" "t" (some "a")
          (some (JValue.obj [])) none).sent_data =
        some (dumps (JValue.obj l2))) ∧
    ((some (JValue.obj []) = (none : Option JValue) ∨
        (∃ v, some (JValue.obj []) = some v ∧ pyFalsy v = true)) →
      (pendingJobRow 0 "j" "k" "t" (some "a")
          (some (JValue.obj [])) none).sent_data =
        some (dumps (JValue.obj []))) :=
  C10_falsy_normalization Store.empty 0 "j" "k" "t" (some "a")
    (some (JValue.obj [])) none none rfl (Or.inl rfl)

theorem map_complete_fresh (l : List JobRow) (now2 : Datetime) (jid : String)
    (dd : Option String) (h : ∀ r ∈ l, (r.job_id == jid) = false) :
    (l.map fun r => if r.job_id == jid then completedRow r now2 dd else r) = l := by
  induction l with
  | nil => rfl
  | cons r t ih =>
    have hr := h r (by simp)
    have ht : ∀ x ∈ t, (x.job_id == jid) = false := fun x hx => h x (by simp [hx])
    rw [List.map_cons, ih ht, if_neg (by simp [hr])]

theorem mark_append_fresh (jobs : List JobRow) (row : JobRow) (md0 : List MetadataRow)
    (lg : List LogRow) (now2 : Datetime) (jid : String) (dd : Option String)
    (hjobs : ∀ r ∈ jobs, (r.job_id == jid) = false)
    (hrow : (row.job_id == jid) = true) :
    mark_job_as_completed ⟨jobs ++ [row], md0, lg⟩ now2 jid dd =
      ⟨jobs ++ [completedRow row now2 dd], md0, lg⟩ := by
  unfold mark_job_as_completed
  rw [List.map_append, map_complete_fresh jobs now2 jid dd hjobs]
  rw [List.map_cons, List.map_nil, if_pos hrow]

/-- Counterexample to C3: `mark_job_as_completed` does not store
`Encode(data)` — it stores the argument verbatim into the data column.
Completing a job with the plain text "hello" leaves exactly "hello"
stored, which differs from the structured encoding `dumps (str "hello")`,
and the subsequent `get_job` raises a decode error (`json.loads` fails on
the stored text) instead of returning a record. -/
theorem C3_counterexample :
    (((mark_job_as_completed
        (add_pending_job Store.empty 0 "j" "k" "t" (some "a") none none none).2.1
        1 "j" (some "hello")).jobs.find? (fun r => r.job_id == "j")).map
          (fun r => r.data) = some (some "hello")) ∧
    some "hello" ≠ some (dumps (JValue.str "hello")) ∧
    get_job (mark_job_as_completed
        (add_pending_job Store.empty 0 "j" "k" "t" (some "a") none none none).2.1
        1 "j" (some "hello")) "j" = .error .decodeError :=
  ⟨by rfl, by decide, by rfl⟩

/-- C3 amended: `mark_job_as_completed` stores its data argument verbatim,
so the caller must supply already-JSON-encoded text. For every job created
by `add_pending_job`, completing it with `dumps v` and reading it back
yields status "complete", data decoding back to `v`, api_key null and
finished_timestamp set (rendered via isoformat). -/
theorem C3_amended_complete_then_get (s : Store) (now now2 : Datetime)
    (jid jk jt : String) (ak : Option String) (d : Option JValue)
    (mdl : List (String × JValue)) (ru : Option String) (v : JValue)
    (h1 : s.jobs.any (fun r => r.job_id == jid) = false)
    (h3 : metaPKviolation s.metadata (metadataInserts jid mdl) = false)
    (h4 : ∀ r ∈ s.metadata, (r.job_id == jid) = false) :
    get_job (mark_job_as_completed
        (add_pending_job s now jid jk jt ak d (some mdl) ru).2.1 now2 jid
        (some (dumps v))) jid =
      .ok (some
        { job_id := jid, job_type := some jt, status := some "complete",
          data := some v, error := none,
          requested_timestamp := some (isoformat now),
          finished_timestamp := some (isoformat now2),
          sent_data := some (normalizeData d), result_url := ru,
          api_key := none, job_key := some jk,
          metadata := mdl, logs := get_logs s jid }) := by
  rw [add_pending_job_ok s now jid jk jt ak d (some mdl) ru h1 h3]
  rw [mark_append_fresh s.jobs (pendingJobRow now jid jk jt ak d ru)
    (s.metadata ++ metadataInserts jid (normalizeMetadata (some mdl))) s.logs now2 jid
    (some (dumps v)) (any_eq_false_mem h1) (by simp [pendingJobRow])]
  have hfind : (⟨s.jobs ++ [completedRow (pendingJobRow now jid jk jt ak d ru) now2
        (some (dumps v))],
      s.metadata ++ metadataInserts jid (normalizeMetadata (some mdl)), s.logs⟩
      : Store).jobs.find? (fun r => r.job_id == jid) =
      some (completedRow (pendingJobRow now jid jk jt ak d ru) now2 (some (dumps v))) :=
    find?_append_fresh s.jobs _ jid (any_eq_false_mem h1)
      (by simp [completedRow, pendingJobRow])
  rw [get_job_found _ jid _ (some (normalizeData d)) (some v) none mdl hfind
    (by simp [completedRow, pendingJobRow, decodeColumn, loads_dumps])
    (by simp [completedRow, pendingJobRow, decodeColumn, loads_dumps])
    (by simp [completedRow, pendingJobRow, decodeColumn])
    (get_metadata_fresh _ s.metadata s.logs jid mdl h4)]
  simp [completedRow, pendingJobRow, get_logs]

theorem C3_amended_witness :
    get_job (mark_job_as_completed
        (add_pending_job Store.empty 0 "j" "k" "t" (some "a") none (some []) none).2.1
        1 "j" (some (dumps (JValue.obj [("x", JValue.num 1)])))) "j" =
      .ok (some
        { job_id := "j", job_type := some "t", status := some "complete",
          data := some (JValue.obj [("x", JValue.num 1)]), error := none,
          requested_timestamp := some (isoformat 0),
          finished_timestamp := some (isoformat 1),
          sent_data := some (normalizeData none), result_url := none,
          api_key := none, job_key := some "k",
          metadata := [], logs := get_logs Store.empty "j" }) :=
  C3_amended_complete_then_get Store.empty 0 1 "j" "k" "t" (some "a") none [] none
    (JValue.obj [("x", JValue.num 1)]) rfl rfl (by simp [Store.empty])

/-- The ordering the spec claims for the returned logs: timestamps
non-decreasing along the list. -/
def timestampsAscendingB : List LogRecord → Bool
  | [] => true
  | [_] => true
  | a :: b :: t =>
    decide (a.timestamp.getD 0 ≤ b.timestamp.getD 0) && timestampsAscendingB (b :: t)

/-- Counterexample to C7: `_get_logs` issues no ORDER BY, so the rows come
back in table order; with two log rows for the same job inserted with
timestamps 5 then 3, the returned sequence is not ordered by timestamp
ascending. -/
theorem C7_counterexample :
    ¬ (timestampsAscendingB (get_logs
      ⟨[], [],
        [{ job_id := "j", timestamp := some 5, message := some "m1", level := none,
           module := none, funcName := none, lineno := none },
         { job_id := "j", timestamp := some 3, message := some "m2", level := none,
           module := none, funcName := none, lineno := none }]⟩ "j") = true) := by
  decide

/-- C7 amended: `_get_logs` returns exactly the log rows whose job_id
matches, in table (insertion) order — no timestamp ordering is applied —
and each returned record is the row with job_id stripped and every other
field preserved. -/
theorem C7_amended_logs (s : Store) (jid : String) :
    List.Sublist (get_logs s jid) (s.logs.map stripJobId) ∧
    (∀ rec, rec ∈ get_logs s jid ↔
      ∃ row, row ∈ s.logs ∧ row.job_id = jid ∧ stripJobId row = rec) ∧
    (∀ row : LogRow, (stripJobId row).timestamp = row.timestamp ∧
      (stripJobId row).message = row.message ∧ (stripJobId row).level = row.level ∧
      (stripJobId row).module = row.module ∧
      (stripJobId row).funcName = row.funcName ∧
      (stripJobId row).lineno = row.lineno) := by
  refine ⟨?_, ?_, ?_⟩
  · exact (List.filter_sublist _).map stripJobId
  · intro rec
    constructor
    · intro hrec
      simp only [get_logs, List.mem_map, List.mem_filter] at hrec
      obtain ⟨row, ⟨hmem, hjid⟩, rfl⟩ := hrec
      exact ⟨row, hmem, by simpa using hjid, rfl⟩
    · rintro ⟨row, hmem, hjid, rfl⟩
      simp only [get_logs, List.mem_map, List.mem_filter]
      exact ⟨row, ⟨hmem, by simpa using hjid⟩, rfl⟩
  · intro row
    exact ⟨rfl, rfl, rfl, rfl, rfl, rfl⟩
